import Mathlib

/-!
Shallow embedding of the forecasting core of `stock_apk.py` (indicator
computation, RSI, min-max scaling, sequence windowing, autoregressive
rollout, continuity shift, sentiment trend forecasting, noise floor),
together with theorems settling the specification claims.

Conventions of the embedding:
* Python/pandas floating-point values are modelled as exact rationals `ℚ`;
  a pandas `NaN` is modelled as `Option.none` wherever the source can
  produce one, and functions that are total in exact arithmetic return `ℚ`.
* pandas `DataFrame`s are modelled as association lists from column name to
  column values (`RawFrame`); frames are assumed rectangular (all columns
  share one length), as pandas guarantees.
* The only genuinely non-rational operation of the source, the square root
  inside the rolling standard deviation, is passed in as a parameter
  `sq : ℚ → ℚ`; no claim below depends on its values, only on where the
  column is defined.
-/

namespace StockApk

/-- Backward fill of a column with missing values, as pandas `Series.bfill`:
each missing entry takes the next defined value after it, and stays missing
only when no later entry is defined. -/
def bfillList : List (Option ℚ) → List (Option ℚ)
  | [] => []
  | x :: xs =>
      let r := bfillList xs
      (match x with
       | some v => some v
       | none => r.headD none) :: r

/-- Fold computing `Σ xs[k] * (1-a)^(len-1-k)`, the numerator of a pandas
`ewm(adjust=True)` mean over the observations `xs`. -/
def ewmNum (a : ℚ) (xs : List ℚ) : ℚ :=
  xs.foldl (fun acc x => acc * (1 - a) + x) 0

/-- Denominator `Σ_{i<k} (1-a)^i` of a pandas `ewm(adjust=True)` mean over
`k` observations. -/
def ewmDen (a : ℚ) (k : ℕ) : ℚ :=
  ((List.range k).map (fun i => (1 - a) ^ i)).sum

/-- Per-step gains `max(delta, 0)` of `series.diff().clip(lower=0)`; entry
`k` is the gain at original series position `k+1` (position 0 of the diff
is `NaN` and is skipped by the ewm mean). -/
def diffGains (s : List ℚ) : List ℚ :=
  (s.zip s.tail).map (fun p => max (p.2 - p.1) 0)

/-- Per-step losses `max(-delta, 0)` of `-series.diff().clip(upper=0)`;
entry `k` is the loss at original series position `k+1`. -/
def diffLosses (s : List ℚ) : List ℚ :=
  (s.zip s.tail).map (fun p => max (p.1 - p.2) 0)

/-- Smoothed average gain at series position `i`:
`gain.ewm(com=period-1, min_periods=period).mean()` evaluated at `i`, which
is defined (non-`NaN`) exactly when at least `period` observations
(positions `1..i`) have been seen and `i` is in range. -/
def avgGain (s : List ℚ) (period i : ℕ) : Option ℚ :=
  if period ≤ i ∧ i < s.length then
    some (ewmNum (1 / (period : ℚ)) ((diffGains s).take i) /
      ewmDen (1 / (period : ℚ)) i)
  else none

/-- Smoothed average loss at series position `i`, analogous to `avgGain`. -/
def avgLoss (s : List ℚ) (period i : ℕ) : Option ℚ :=
  if period ≤ i ∧ i < s.length then
    some (ewmNum (1 / (period : ℚ)) ((diffLosses s).take i) /
      ewmDen (1 / (period : ℚ)) i)
  else none

/-- RSI value at position `i` of the series, after the source's
`rsi.fillna(100)`: where either smoothed average is still undefined the
`NaN` is filled with 100, where the average loss is zero the `NaN` ratio is
likewise filled with 100, and otherwise `100 - 100/(1+rs)`.  The source's
trailing `rsi.bfill()` is a no-op because `fillna(100)` already removed
every `NaN`, so it does not appear here. -/
def rsiAt (s : List ℚ) (period i : ℕ) : ℚ :=
  match avgGain s period i, avgLoss s period i with
  | some ag, some al => if al = 0 then 100 else 100 - 100 / (1 + ag / al)
  | _, _ => 100

/-- Model of `compute_rsi(series, period)`: the full RSI series, one value
per input position. -/
def compute_rsi (s : List ℚ) (period : ℕ) : List ℚ :=
  (List.range s.length).map (rsiAt s period)

lemma foldl_ewm_nonneg (a : ℚ) (h1 : a ≤ 1) (xs : List ℚ) :
    (∀ x ∈ xs, 0 ≤ x) → ∀ acc, 0 ≤ acc →
      0 ≤ xs.foldl (fun acc x => acc * (1 - a) + x) acc := by
  induction xs with
  | nil => intro _ acc h; simpa using h
  | cons x t ih =>
      intro hx acc hacc
      simp only [List.foldl_cons]
      refine ih (fun y hy => hx y (by simp [hy])) _ ?_
      have hxnn : 0 ≤ x := hx x (by simp)
      have : 0 ≤ acc * (1 - a) := mul_nonneg hacc (by linarith)
      linarith

lemma ewmNum_nonneg (a : ℚ) (h1 : a ≤ 1) (xs : List ℚ)
    (hxs : ∀ x ∈ xs, 0 ≤ x) : 0 ≤ ewmNum a xs :=
  foldl_ewm_nonneg a h1 xs hxs 0 le_rfl

lemma ewmDen_nonneg (a : ℚ) (h1 : a ≤ 1) (k : ℕ) : 0 ≤ ewmDen a k := by
  refine List.sum_nonneg ?_
  intro x hx
  simp only [List.mem_map] at hx
  obtain ⟨i, _, rfl⟩ := hx
  exact pow_nonneg (by linarith) i

lemma diffGains_nonneg (s : List ℚ) : ∀ x ∈ diffGains s, 0 ≤ x := by
  intro x hx
  simp only [diffGains, List.mem_map] at hx
  obtain ⟨p, _, rfl⟩ := hx
  exact le_max_right _ _

lemma diffLosses_nonneg (s : List ℚ) : ∀ x ∈ diffLosses s, 0 ≤ x := by
  intro x hx
  simp only [diffLosses, List.mem_map] at hx
  obtain ⟨p, _, rfl⟩ := hx
  exact le_max_right _ _

lemma rsi_alpha_le_one (period : ℕ) : (1 : ℚ) / (period : ℚ) ≤ 1 := by
  rcases Nat.eq_zero_or_pos period with h | h
  · simp [h]
  · have hp : (1 : ℚ) ≤ (period : ℚ) := by exact_mod_cast h
    rw [div_le_one (by linarith)]
    exact hp

lemma avgGain_nonneg (s : List ℚ) (period i : ℕ) (ag : ℚ)
    (h : avgGain s period i = some ag) : 0 ≤ ag := by
  simp only [avgGain] at h
  split at h
  · cases h
    exact div_nonneg
      (ewmNum_nonneg _ (rsi_alpha_le_one period) _
        (fun x hx => diffGains_nonneg s x (List.mem_of_mem_take hx)))
      (ewmDen_nonneg _ (rsi_alpha_le_one period) _)
  · cases h

lemma avgLoss_nonneg (s : List ℚ) (period i : ℕ) (al : ℚ)
    (h : avgLoss s period i = some al) : 0 ≤ al := by
  simp only [avgLoss] at h
  split at h
  · cases h
    exact div_nonneg
      (ewmNum_nonneg _ (rsi_alpha_le_one period) _
        (fun x hx => diffLosses_nonneg s x (List.mem_of_mem_take hx)))
      (ewmDen_nonneg _ (rsi_alpha_le_one period) _)
  · cases h

lemma rsiAt_bounds (s : List ℚ) (period i : ℕ) :
    0 ≤ rsiAt s period i ∧ rsiAt s period i ≤ 100 := by
  rcases hag : avgGain s period i with _ | ag
  · rcases hal : avgLoss s period i with _ | al <;> norm_num [rsiAt, hag, hal]
  · rcases hal : avgLoss s period i with _ | al
    · norm_num [rsiAt, hag, hal]
    · simp only [rsiAt, hag, hal]
      have hagn : 0 ≤ ag := avgGain_nonneg s period i ag hag
      have haln : 0 ≤ al := avgLoss_nonneg s period i al hal
      by_cases h0 : al = 0
      · norm_num [h0]
      · simp only [h0, if_false]
        have halp : 0 < al := lt_of_le_of_ne haln (Ne.symm h0)
        have hrs : 0 ≤ ag / al := div_nonneg hagn haln
        have hden : (1 : ℚ) ≤ 1 + ag / al := by linarith
        have hle : 100 / (1 + ag / al) ≤ 100 := div_le_self (by norm_num) hden
        have hpos : 0 < 100 / (1 + ag / al) := by positivity
        constructor <;> linarith

lemma rsiAt_eq_100_iff (s : List ℚ) (period i : ℕ)
    (h1 : period ≤ i) (h2 : i < s.length) :
    rsiAt s period i = 100 ↔ avgLoss s period i = some 0 := by
  have hag : avgGain s period i = some (ewmNum (1 / (period : ℚ))
      ((diffGains s).take i) / ewmDen (1 / (period : ℚ)) i) := by
    simp [avgGain, h1, h2]
  have hal : avgLoss s period i = some (ewmNum (1 / (period : ℚ))
      ((diffLosses s).take i) / ewmDen (1 / (period : ℚ)) i) := by
    simp [avgLoss, h1, h2]
  set ag := ewmNum (1 / (period : ℚ)) ((diffGains s).take i) /
    ewmDen (1 / (period : ℚ)) i with hagdef
  set al := ewmNum (1 / (period : ℚ)) ((diffLosses s).take i) /
    ewmDen (1 / (period : ℚ)) i with haldef
  have hagn : 0 ≤ ag := avgGain_nonneg s period i ag hag
  have haln : 0 ≤ al := avgLoss_nonneg s period i al hal
  unfold rsiAt
  rw [hag, hal]
  by_cases h0 : al = 0
  · simp [h0]
  · simp only [h0, if_false, hal, Option.some_inj]
    constructor
    · intro habs
      exfalso
      have halp : 0 < al := lt_of_le_of_ne haln (Ne.symm h0)
      have hrs : 0 ≤ ag / al := div_nonneg hagn haln
      have hpos : 0 < 100 / (1 + ag / al) := by positivity
      linarith
    · intro habs
      exact habs.elim

lemma compute_rsi_getElem (s : List ℚ) (period i : ℕ) (h : i < s.length) :
    (compute_rsi s period)[i]? = some (rsiAt s period i) := by
  simp [compute_rsi, List.getElem?_map, List.getElem?_range, h]

/-- C4 (amended): every value of the RSI series is in `[0, 100]`, and at
positions at or after the warm-up period (where the exponentially smoothed
averages are defined) the RSI equals 100 exactly when the smoothed average
loss is 0.  At warm-up positions the source's `fillna(100)` sets the RSI to
100 unconditionally even though the smoothed average loss is undefined
there, which is why the exactness part carries the `period ≤ i`
hypothesis. -/
theorem rsi_bounds_and_loss_iff (s : List ℚ) (period i : ℕ) :
    (∀ r, (compute_rsi s period)[i]? = some r → 0 ≤ r ∧ r ≤ 100) ∧
    (period ≤ i → i < s.length →
      ((compute_rsi s period)[i]? = some 100 ↔ avgLoss s period i = some 0)) := by
  constructor
  · intro r hr
    rcases Nat.lt_or_ge i s.length with hlt | hge
    · rw [compute_rsi_getElem s period i hlt] at hr
      cases hr
      exact rsiAt_bounds s period i
    · rw [List.getElem?_eq_none (by simpa [compute_rsi] using hge)] at hr
      cases hr
  · intro h1 h2
    rw [compute_rsi_getElem s period i h2, Option.some_inj]
    exact rsiAt_eq_100_iff s period i h1 h2

/-- C4 counterexample: for the two-element series `[2, 1]` the RSI at
position 0 is 100 (it is `NaN`-filled), yet the smoothed average loss at
position 0 is undefined, not 0 — so "RSI equals 100 at exactly those
positions where the smoothed average loss is 0" fails as stated. -/
theorem rsi_loss_iff_cex :
    (compute_rsi [2, 1] 14)[0]? = some 100 ∧ avgLoss [2, 1] 14 0 ≠ some 0 := by
  constructor
  · rw [compute_rsi_getElem _ 14 0 (by norm_num)]
    simp [rsiAt, avgGain, avgLoss]
  · simp [avgLoss]

/-- Witness for `rsi_bounds_and_loss_iff`: on the strictly increasing
series `1..15` with period 14, position 14 has smoothed average loss 0 and
the theorem yields RSI = 100 there. -/
theorem rsi_bounds_and_loss_iff_witness :
    (compute_rsi [1, 2, 3, 4, 5, 6, 7, 8, 9, 10, 11, 12, 13, 14, 15] 14)[14]? =
      some 100 :=
  ((rsi_bounds_and_loss_iff [1, 2, 3, 4, 5, 6, 7, 8, 9, 10, 11, 12, 13, 14, 15]
      14 14).2 (by norm_num) (by norm_num)).mpr (by
    norm_num [avgLoss, diffLosses, ewmNum, List.zip, List.zipWith, List.take,
      List.foldl])

/-- Model of the sequence-construction loop of `predict_future`
(`for i in range(time_step, len(scaled_data)): X.append(scaled_data[i-T:i]);
y.append(scaled_data[i, 0])`): the list of `(window, label)` pairs. -/
def make_windows (m : List (List ℚ)) (T : ℕ) : List (List (List ℚ) × ℚ) :=
  (List.range' T (m.length - T)).map
    (fun i => ((m.drop (i - T)).take T, (m.getD i []).getD 0 0))

/-- Next-step feature row synthesized by the rollout: the last row of the
current window with only the target column (index 0) overwritten by the new
prediction (`new_row = current_batch[0, -1, :].copy(); new_row[0] = pred`). -/
def synthRow (w : List (List ℚ)) (p : ℚ) : List ℚ :=
  (w.getLastD []).set 0 p

/-- One autoregressive step on the window: append the synthesized row and
drop the oldest row
(`current_batch = np.append(current_batch[:, 1:, :], new_row, axis=1)`). -/
def rollStep (f : List (List ℚ) → ℚ) (w : List (List ℚ)) : List (List ℚ) :=
  w.drop 1 ++ [synthRow w (f w)]

/-- Window after `k` autoregressive steps, with the trained predictor
treated as the opaque one-step function `f`. -/
def rollWindow (f : List (List ℚ) → ℚ) (w : List (List ℚ)) : ℕ → List (List ℚ)
  | 0 => w
  | k + 1 => rollStep f (rollWindow f w k)

/-- Scaled target predictions emitted by `h` autoregressive steps
(`predicted_scaled_prices` after the loop). -/
def rollPreds (f : List (List ℚ) → ℚ) (w : List (List ℚ)) : ℕ → List ℚ
  | 0 => []
  | k + 1 => rollPreds f w k ++ [f (rollWindow f w k)]

/-- Inverse transform through the extracted close-column scaler
(`close_scaler.inverse_transform`): sklearn's `X = (X_scaled - min_) / scale_`
applied elementwise. -/
def inverseClose (minAttr scaleAttr : ℚ) (xs : List ℚ) : List ℚ :=
  xs.map (fun p => (p - minAttr) / scaleAttr)

/-- Continuity shift of `predict_future`
(`adjusted_prices = predicted_prices + (last_actual_price - predicted_prices[0])`)
applied to the inverse-scaled path. -/
def adjustedPrices (minAttr scaleAttr lastActual : ℚ) (xs : List ℚ) : List ℚ :=
  let inv := inverseClose minAttr scaleAttr xs
  inv.map (fun x => x + (lastActual - inv.headD 0))

/-- C1: for every nonempty scaled prediction path, the finalize stage adds
`lastActual - inverse_scaled_path[0]` to every inverse-scaled element, so
the first forecast price equals the last actual close exactly — before the
sentiment blend and the noise injection, which happen afterwards. -/
theorem continuity_shift_first_price (minAttr scaleAttr lastActual : ℚ)
    (xs : List ℚ) (h : xs ≠ []) :
    (adjustedPrices minAttr scaleAttr lastActual xs).head? = some lastActual ∧
    adjustedPrices minAttr scaleAttr lastActual xs =
      (inverseClose minAttr scaleAttr xs).map
        (fun x => x + (lastActual - (inverseClose minAttr scaleAttr xs).headD 0)) := by
  refine ⟨?_, rfl⟩
  obtain ⟨p, t, rfl⟩ := List.exists_cons_of_ne_nil h
  simp only [adjustedPrices, inverseClose, List.map_cons, List.headD_cons,
    List.head?_cons, Option.some_inj]
  ring

/-- Witness for `continuity_shift_first_price` at a concrete path. -/
theorem continuity_shift_first_price_witness :
    (adjustedPrices 2 3 7 [5, 9]).head? = some 7 ∧
    adjustedPrices 2 3 7 [5, 9] =
      (inverseClose 2 3 [5, 9]).map
        (fun x => x + (7 - (inverseClose 2 3 [5, 9]).headD 0)) :=
  continuity_shift_first_price 2 3 7 [5, 9] (by simp)

/-- C2: the sequence-construction step yields exactly `len - T` window/label
pairs when `len > T` and none otherwise, and pair `k` (for index
`i = T + k`) is the window of rows `[i-T, i)` with the target-column value
at row `i` as its label. -/
theorem make_windows_spec (m : List (List ℚ)) (T : ℕ) :
    (make_windows m T).length = m.length - T ∧
    (m.length ≤ T → make_windows m T = []) ∧
    (∀ k, k < m.length - T →
      (make_windows m T)[k]? =
        some ((m.drop k).take T, (m.getD (T + k) []).getD 0 0)) := by
  refine ⟨by simp [make_windows], ?_, ?_⟩
  · intro h
    have : m.length - T = 0 := Nat.sub_eq_zero_of_le h
    simp [make_windows, this]
  · intro k hk
    simp only [make_windows, List.getElem?_map, List.getElem?_range' _ _ hk,
      Option.map_some]
    simp [Nat.add_comm T k]

/-- Witness for `make_windows_spec` on a concrete 3-row matrix with T = 2. -/
theorem make_windows_spec_witness :
    (make_windows [[1], [2], [3]] 2)[0]? = some ([[1], [2]], 3) ∧
    (make_windows [[1], [2], [3]] 2).length = 1 := by
  refine ⟨?_, (make_windows_spec [[1], [2], [3]] 2).1⟩
  have h := (make_windows_spec [[1], [2], [3]] 2).2.2 0 (by norm_num)
  simpa using h

lemma rollWindow_ne_nil (f : List (List ℚ) → ℚ) (w : List (List ℚ))
    (h : w ≠ []) : ∀ k, rollWindow f w k ≠ [] := by
  intro k
  induction k with
  | zero => exact h
  | succ k ih => simp [rollWindow, rollStep]

lemma rollWindow_length (f : List (List ℚ) → ℚ) (w : List (List ℚ))
    (h : w ≠ []) : ∀ k, (rollWindow f w k).length = w.length := by
  intro k
  induction k with
  | zero => rfl
  | succ k ih =>
      have hne := rollWindow_ne_nil f w h k
      have hpos : 0 < (rollWindow f w k).length := List.length_pos.mpr hne
      simp only [rollWindow, rollStep, List.length_append, List.length_drop,
        List.length_cons, List.length_nil]
      omega

lemma rollWindow_getLast_nontarget (f : List (List ℚ) → ℚ)
    (w : List (List ℚ)) : ∀ k, ∀ j, j ≠ 0 →
      ((rollWindow f w k).getLastD [])[j]? = (w.getLastD [])[j]? := by
  intro k
  induction k with
  | zero => intro j _; rfl
  | succ k ih =>
      intro j hj
      have hlast : (rollWindow f w (k + 1)).getLastD [] =
          synthRow (rollWindow f w k) (f (rollWindow f w k)) := by
        simp [rollWindow, rollStep, List.getLastD_concat]
      rw [hlast, synthRow, List.getElem?_set_ne (Ne.symm hj)]
      exact ih j hj

lemma rollPreds_length (f : List (List ℚ) → ℚ) (w : List (List ℚ)) :
    ∀ h, (rollPreds f w h).length = h := by
  intro h
  induction h with
  | zero => rfl
  | succ h ih => simp [rollPreds, ih]

/-- C3: with the trained predictor as an opaque one-step function `f`, an
initial window of `T > 0` rows and any horizon `h`, the roller emits
exactly `h` scaled predictions, every intermediate window keeps length
exactly `T`, all non-target entries of the window's last row stay equal to
the initial window's last observed row throughout, and each step appends
the synthesized row (last row with only index 0 replaced) while dropping
the oldest row. -/
theorem autoregressive_roll_spec (f : List (List ℚ) → ℚ) (w : List (List ℚ))
    (T : ℕ) (hT : 0 < T) (hw : w.length = T) (h : ℕ) :
    (rollPreds f w h).length = h ∧
    (rollWindow f w h).length = T ∧
    (∀ j, j ≠ 0 →
      ((rollWindow f w h).getLastD [])[j]? = (w.getLastD [])[j]?) ∧
    rollWindow f w (h + 1) =
      (rollWindow f w h).drop 1 ++
        [synthRow (rollWindow f w h) (f (rollWindow f w h))] := by
  have hne : w ≠ [] := by
    intro habs
    rw [habs] at hw
    simp at hw
    omega
  exact ⟨rollPreds_length f w h, by rw [rollWindow_length f w hne h, hw],
    rollWindow_getLast_nontarget f w h, rfl⟩

/-- Witness for `autoregressive_roll_spec` on a concrete 2-row window. -/
theorem autoregressive_roll_spec_witness :
    (rollPreds (fun _ => (42 : ℚ)) [[1, 2], [3, 4]] 1).length = 1 ∧
    ((rollWindow (fun _ => (42 : ℚ)) [[1, 2], [3, 4]] 1).getLastD [])[1]? =
      (([[1, 2], [3, 4]] : List (List ℚ)).getLastD [])[1]? := by
  have h := autoregressive_roll_spec (fun _ => (42 : ℚ)) [[1, 2], [3, 4]] 2
    (by norm_num) (by norm_num) 1
  exact ⟨h.1, h.2.2.1 1 (by norm_num)⟩

/-- Arithmetic mean, as `np.mean` on a nonempty list (the source guards
every call so the list is never empty). -/
def meanList (xs : List ℚ) : ℚ := xs.sum / xs.length

/-- Clipping to `[-1, 1]`, as `np.clip(x, -1, 1)`. -/
def clip1 (x : ℚ) : ℚ := min (max x (-1)) 1

/-- Ordinary least-squares slope of `ys` against `xs`, the coefficient
computed by `sklearn.LinearRegression().fit` on one feature.  When all `xs`
coincide the rational division yields 0, matching the minimum-norm least
squares solution sklearn computes in that degenerate case. -/
def olsSlope (xs ys : List ℚ) : ℚ :=
  let xb := meanList xs
  let yb := meanList ys
  ((xs.zip ys).map (fun p => (p.1 - xb) * (p.2 - yb))).sum /
    ((xs.map (fun x => (x - xb) ^ 2)).sum)

/-- Prediction of the fitted line at `t`:
`intercept + slope * t = ȳ + slope * (t - x̄)`. -/
def olsPredict (xs ys : List ℚ) (t : ℚ) : ℚ :=
  meanList ys + olsSlope xs ys * (t - meanList xs)

/-- Model of `forecast_future_sentiment(future_dates)`: dates are day
ordinals (`ℕ`), the sentiment store is an association list from date to
aggregated score, and `today` is passed explicitly in place of
`datetime.today()`.  The source iterates `sorted(self.sentiment_data.items())`;
the sort order affects neither the count, the mean, nor the least-squares
fit, so the list is consumed in place here. -/
def forecast_future_sentiment (today : ℕ) (sentimentData : List (ℕ × ℚ))
    (futureDates : List ℕ) : List (ℕ × ℚ) :=
  if sentimentData = [] then futureDates.map (fun d => (d, 0))
  else
    let cutoff := today - 30
    let recent := sentimentData.filter (fun p => cutoff ≤ p.1)
    if recent.length < 5 then
      let fallback := if recent ≠ [] then meanList (recent.map Prod.snd)
        else meanList (sentimentData.map Prod.snd)
      futureDates.map (fun d => (d, fallback))
    else
      let xs := recent.map (fun p => ((p.1 : ℚ)))
      let ys := recent.map Prod.snd
      futureDates.map (fun d => (d, clip1 (olsPredict xs ys (d : ℚ))))

/-- C6: with fewer than 5 sentiment observations in the last 30 days the
forecast maps every forecast date to one constant — the mean of the recent
observations if any exist, else the mean of the whole store, else 0 for an
empty store — and, being a total function, it never raises. -/
theorem sentiment_fallback_flat (today : ℕ) (smap : List (ℕ × ℚ))
    (fds : List ℕ)
    (h : (smap.filter (fun p => today - 30 ≤ p.1)).length < 5) :
    ∃ c, forecast_future_sentiment today smap fds = fds.map (fun d => (d, c)) ∧
      c = (if smap.filter (fun p => today - 30 ≤ p.1) ≠ [] then
             meanList ((smap.filter (fun p => today - 30 ≤ p.1)).map Prod.snd)
           else if smap ≠ [] then meanList (smap.map Prod.snd) else 0) := by
  by_cases hs : smap = []
  · refine ⟨0, ?_, ?_⟩
    · simp [forecast_future_sentiment, hs]
    · simp [hs]
  · refine ⟨if smap.filter (fun p => today - 30 ≤ p.1) ≠ [] then
        meanList ((smap.filter (fun p => today - 30 ≤ p.1)).map Prod.snd)
      else meanList (smap.map Prod.snd), ?_, ?_⟩
    · simp only [forecast_future_sentiment, hs, if_false, h, if_true]
    · by_cases hr : smap.filter (fun p => today - 30 ≤ p.1) = [] <;>
        simp [hr, hs]

/-- Witness for `sentiment_fallback_flat`: one recent observation of 1/2
gives the flat forecast 1/2 on both requested dates. -/
theorem sentiment_fallback_flat_witness :
    forecast_future_sentiment 100 [(100, 1/2)] [101, 102] =
      [(101, 1/2), (102, 1/2)] := by
  obtain ⟨c, hc, hcval⟩ := sentiment_fallback_flat 100 [(100, 1/2)] [101, 102]
    (by norm_num [List.filter])
  rw [hc, hcval]
  norm_num [List.filter, meanList]

lemma list_sum_bounds (xs : List ℚ) (hb : ∀ x ∈ xs, -1 ≤ x ∧ x ≤ 1) :
    -(xs.length : ℚ) ≤ xs.sum ∧ xs.sum ≤ (xs.length : ℚ) := by
  induction xs with
  | nil => simp
  | cons x t ih =>
      have hx := hb x (by simp)
      have ht := ih (fun y hy => hb y (by simp [hy]))
      simp only [List.sum_cons, List.length_cons]
      push_cast
      constructor <;> linarith [ht.1, ht.2, hx.1, hx.2]

lemma meanList_bounds (xs : List ℚ) (hne : xs ≠ [])
    (hb : ∀ x ∈ xs, -1 ≤ x ∧ x ≤ 1) :
    -1 ≤ meanList xs ∧ meanList xs ≤ 1 := by
  have hlen : 0 < (xs.length : ℚ) := by
    have : 0 < xs.length := List.length_pos.mpr hne
    exact_mod_cast this
  have hs := list_sum_bounds xs hb
  unfold meanList
  constructor
  · rw [le_div_iff₀ hlen]
    linarith [hs.1]
  · rw [div_le_one hlen]
    exact hs.2

lemma clip1_bounds (x : ℚ) : -1 ≤ clip1 x ∧ clip1 x ≤ 1 := by
  unfold clip1
  constructor
  · exact le_min (le_trans (by norm_num : (-1:ℚ) ≤ -1) (le_max_right x (-1))
      |>.trans_eq rfl) (by norm_num)
  · exact min_le_right _ _

/-- C7 (amended): provided every score stored in the SentimentMap lies in
`[-1, 1]` — the invariant the data model guarantees — every score produced
by the sentiment trend forecast lies in `[-1, 1]`: the regression path clips
explicitly and the fallback paths take means of in-range scores.  Without
that restriction the property fails (see the counterexample), because the
fallback mean is returned unclipped. -/
theorem sentiment_forecast_range (today : ℕ) (smap : List (ℕ × ℚ))
    (fds : List ℕ) (hb : ∀ p ∈ smap, -1 ≤ p.2 ∧ p.2 ≤ 1) :
    ∀ q ∈ forecast_future_sentiment today smap fds, -1 ≤ q.2 ∧ q.2 ≤ 1 := by
  intro q hq
  unfold forecast_future_sentiment at hq
  by_cases hs : smap = []
  · simp only [hs, if_true, List.mem_map] at hq
    obtain ⟨d, _, rfl⟩ := hq
    norm_num
  · simp only [hs, if_false] at hq
    set recent := smap.filter (fun p => today - 30 ≤ p.1) with hrec
    have hrecb : ∀ p ∈ recent, -1 ≤ p.2 ∧ p.2 ≤ 1 :=
      fun p hp => hb p (List.mem_of_mem_filter hp)
    by_cases hlt : recent.length < 5
    · simp only [hlt, if_true, List.mem_map] at hq
      obtain ⟨d, _, rfl⟩ := hq
      by_cases hr : recent = []
      · have hsnd : ∀ x ∈ smap.map Prod.snd, -1 ≤ x ∧ x ≤ 1 := by
          intro x hx
          obtain ⟨p, hp, rfl⟩ := List.mem_map.mp hx
          exact hb p hp
        have := meanList_bounds (smap.map Prod.snd) (by simpa using hs) hsnd
        simpa [hr] using this
      · have hsnd : ∀ x ∈ recent.map Prod.snd, -1 ≤ x ∧ x ≤ 1 := by
          intro x hx
          obtain ⟨p, hp, rfl⟩ := List.mem_map.mp hx
          exact hrecb p hp
        have := meanList_bounds (recent.map Prod.snd) (by simpa using hr) hsnd
        simpa [hr] using this
    · simp only [hlt, if_false, List.mem_map] at hq
      obtain ⟨d, _, rfl⟩ := hq
      exact clip1_bounds _

/-- C7 counterexample: a single recent observation with score 2 (outside
`[-1, 1]`) makes the fallback return 2 unclipped, so "every produced score
lies in `[-1, 1]` regardless of input magnitude" is false as stated. -/
theorem sentiment_forecast_range_cex :
    ((1001 : ℕ), (2 : ℚ)) ∈ forecast_future_sentiment 1000 [(1000, 2)] [1001] ∧
    ¬((-1 : ℚ) ≤ 2 ∧ (2 : ℚ) ≤ 1) := by
  constructor
  · norm_num [forecast_future_sentiment, meanList, List.filter]
  · norm_num

/-- Witness for `sentiment_forecast_range` at an in-range store. -/
theorem sentiment_forecast_range_witness :
    (-1 : ℚ) ≤ (1/2 : ℚ) ∧ (1/2 : ℚ) ≤ 1 := by
  have h := sentiment_forecast_range 1000 [(1000, 1/2)] [1001]
    (by norm_num) (1001, 1/2)
    (by norm_num [forecast_future_sentiment, meanList, List.filter])
  simpa using h

/-- Tail of an exponential moving average with `adjust=False`:
`e_i = a * x_i + (1 - a) * e_{i-1}` continuing from `prev`. -/
def emaFrom (a : ℚ) : ℚ → List ℚ → List ℚ
  | _, [] => []
  | prev, x :: xs =>
      let e := a * x + (1 - a) * prev
      e :: emaFrom a e xs

/-- Exponential moving average with `adjust=False`, seeded with the first
observation, as `Series.ewm(span=s, adjust=False).mean()`. -/
def emaList (a : ℚ) : List ℚ → List ℚ
  | [] => []
  | x :: xs => x :: emaFrom a x xs

/-- `ewm(span=s, adjust=False).mean()` with smoothing `a = 2/(s+1)`. -/
def ema_span (s : ℕ) (xs : List ℚ) : List ℚ :=
  emaList (2 / ((s : ℚ) + 1)) xs

/-- `Series.rolling(window=w).mean()` at position `i`: defined once a full
window fits, `NaN` (`none`) during warm-up or out of range. -/
def rollingMean (w : ℕ) (xs : List ℚ) (i : ℕ) : Option ℚ :=
  if i + 1 < w ∨ xs.length ≤ i then none
  else some ((((xs.drop (i + 1 - w)).take w).sum) / (w : ℚ))

/-- `Series.diff()` over an `Option`-valued accessor: `NaN` at position 0
and wherever either operand is undefined. -/
def diffOpt (g : ℕ → Option ℚ) (i : ℕ) : Option ℚ :=
  if i = 0 then none
  else
    match g (i - 1), g i with
    | some a, some b => some (b - a)
    | _, _ => none

/-- Raw on-balance volume at position `i`, as the source loop: start at 0,
add volume on a strictly higher close, subtract it on a strictly lower
close, carry it unchanged on an equal close. -/
def obvAt (close volume : List ℚ) : ℕ → ℚ
  | 0 => 0
  | i + 1 =>
      obvAt close volume i +
        (if close.getD i 0 < close.getD (i + 1) 0 then volume.getD (i + 1) 0
         else if close.getD (i + 1) 0 < close.getD i 0 then
           -volume.getD (i + 1) 0
         else 0)

/-- Smallest element of a list (0 for an empty list), `sklearn`'s
`data_min_` of one column. -/
def minOf (xs : List ℚ) : ℚ := xs.foldr min (xs.headD 0)

/-- Largest element of a list (0 for an empty list), `sklearn`'s
`data_max_` of one column. -/
def maxOf (xs : List ℚ) : ℚ := xs.foldr max (xs.headD 0)

/-- `MinMaxScaler`'s per-column `scale_` for feature range `(0, 1)`:
`1 / (max - min)`, with a zero data range replaced by 1 as
`_handle_zeros_in_scale` does. -/
def mmScale (xs : List ℚ) : ℚ :=
  if maxOf xs - minOf xs = 0 then 1 else (maxOf xs - minOf xs)⁻¹

/-- `MinMaxScaler().fit_transform` of one column:
`(x - data_min_) * scale_`. -/
def minmaxList (xs : List ℚ) : List ℚ :=
  xs.map (fun x => (x - minOf xs) * mmScale xs)

/-- The OBV feature column of the indicator engine: the raw cumulative OBV
series min-max scaled to `[0, 1]` over the whole series. -/
def obvColumn (close volume : List ℚ) : List ℚ :=
  minmaxList ((List.range close.length).map (obvAt close volume))

/-- True range at position `i`: at the first row only `high - low` is
defined (the shifted previous close is `NaN` and `max(skipna=True)` ignores
it); afterwards the maximum of `high-low`, `|high-prev_close|` and
`|low-prev_close|`. -/
def trAt (close high low : List ℚ) (i : ℕ) : ℚ :=
  if i = 0 then high.getD 0 0 - low.getD 0 0
  else
    max (high.getD i 0 - low.getD i 0)
      (max |high.getD i 0 - close.getD (i - 1) 0|
        |low.getD i 0 - close.getD (i - 1) 0|)

/-- The ATR column: `tr.ewm(span=vol_window, adjust=False).mean()`. -/
def atrList (close high low : List ℚ) (vw : ℕ) : List ℚ :=
  ema_span vw ((List.range close.length).map (trAt close high low))

/-- Rolling standard deviation `close.rolling(vol_window).std()` (sample
variance, `ddof=1`).  The square root is the one irrational operation of
the source and is supplied as the abstract `sq`; every claim below is
independent of its values. -/
def stdAt (sq : ℚ → ℚ) (vw : ℕ) (close : List ℚ) (i : ℕ) : Option ℚ :=
  if i + 1 < vw ∨ close.length ≤ i then none
  else
    let win := (close.drop (i + 1 - vw)).take vw
    let m := win.sum / (vw : ℚ)
    some (sq ((win.map (fun x => (x - m) ^ 2)).sum / ((vw : ℚ) - 1)))

/-- Bollinger band width before back-filling:
`(UpperBB - LowerBB) / EMA20 = 4*StdDev / EMA20`, `NaN` while the rolling
standard deviation is warming up and where `EMA20` is zero (the source
replaces a zero `EMA20` by `NaN` before dividing). -/
def bbRawAt (sq : ℚ → ℚ) (vw : ℕ) (close ema20 : List ℚ) (i : ℕ) : Option ℚ :=
  match stdAt sq vw close i with
  | none => none
  | some sd =>
      if ema20.getD i 0 = 0 then none else some (4 * sd / ema20.getD i 0)

/-- ASCII lowercasing of a column name, as `str(col).lower()` on the
identifier-like column names the source handles. -/
def lowerStr (s : String) : String := String.mk (s.data.map Char.toLower)

/-- A pandas `DataFrame` of numeric columns: an association list from
column name to column values.  Frames are rectangular (pandas aligns all
columns to one index), so the row count is the first column's length. -/
abbrev RawFrame := List (String × List ℚ)

/-- Lowercase every column name, as
`data.columns = [str(col).lower() for col in data.columns]`. -/
def lowerCols (df : RawFrame) : RawFrame :=
  df.map (fun c => (lowerStr c.1, c.2))

/-- Column access after lowercasing.  `List.lookup` returns the first
match, which also models the source's dropping of duplicate columns with
`keep='first'`. -/
def getCol (df : RawFrame) (name : String) : Option (List ℚ) :=
  (lowerCols df).lookup name

/-- Number of rows of a rectangular frame. -/
def frameNRows (df : RawFrame) : ℕ :=
  match df with
  | [] => 0
  | c :: _ => c.2.length

/-- `df.empty`: no columns or no rows. -/
def frameEmpty (df : RawFrame) : Bool :=
  df.isEmpty || frameNRows df == 0

/-- The structural columns `compute_indicators` requires. -/
def requiredCols : List String := ["close", "high", "low", "volume"]

/-- Row `i` of the feature table before `dropna()`, in the source's fixed
column order `close, EMA20, MACD, RSI_MA, RSI_Slope, OBV, ATR, StdDev,
BBWidth`; entries that can be `NaN` in the source are `Option`-valued,
the rest are total in exact arithmetic. -/
def indicatorRowOpts (sq : ℚ → ℚ) (volWindow emaWindow : ℕ)
    (close high low volume : List ℚ) (i : ℕ) : List (Option ℚ) :=
  [some (close.getD i 0),
   some ((ema_span emaWindow close).getD i 0),
   some ((List.zipWith (fun a b => a - b) (ema_span 12 close)
     (ema_span 26 close)).getD i 0),
   rollingMean 9 (compute_rsi close 14) i,
   diffOpt (rollingMean 9 (compute_rsi close 14)) i,
   some ((obvColumn close volume).getD i 0),
   some ((atrList close high low volWindow).getD i 0),
   stdAt sq volWindow close i,
   (bfillList ((List.range close.length).map
     (bbRawAt sq volWindow close (ema_span emaWindow close)))).getD i none]

/-- Model of `compute_indicators(df, vol_window, ema_window)`: empty result
for an empty frame or for missing structural columns, otherwise the feature
matrix restricted to the rows `dropna()` keeps (those whose nine entries
are all defined). -/
def compute_indicators (sq : ℚ → ℚ) (volWindow emaWindow : ℕ)
    (df : RawFrame) : List (List ℚ) :=
  if frameEmpty df then []
  else if requiredCols.any (fun c => (getCol df c).isNone) then []
  else
    let close := (getCol df "close").getD []
    let high := (getCol df "high").getD []
    let low := (getCol df "low").getD []
    let volume := (getCol df "volume").getD []
    ((List.range close.length).filter
        (fun i => (indicatorRowOpts sq volWindow emaWindow close high low
          volume i).all Option.isSome)).map
      (fun i => (indicatorRowOpts sq volWindow emaWindow close high low
        volume i).map (fun o => o.getD 0))

lemma lowerStr_close : lowerStr "close" = "close" := by decide

lemma lowerStr_high : lowerStr "high" = "high" := by decide

lemma lowerStr_low : lowerStr "low" = "low" := by decide

lemma lowerStr_volume : lowerStr "volume" = "volume" := by decide

lemma beq_high_close : (("high" : String) == "close") = false := by decide

lemma beq_low_close : (("low" : String) == "close") = false := by decide

lemma beq_low_high : (("low" : String) == "high") = false := by decide

lemma beq_volume_close : (("volume" : String) == "close") = false := by decide

lemma beq_volume_high : (("volume" : String) == "high") = false := by decide

lemma beq_volume_low : (("volume" : String) == "low") = false := by decide

lemma getCol_quad (cl hi lo vo : List ℚ) :
    getCol [("close", cl), ("high", hi), ("low", lo), ("volume", vo)]
      "close" = some cl ∧
    getCol [("close", cl), ("high", hi), ("low", lo), ("volume", vo)]
      "high" = some hi ∧
    getCol [("close", cl), ("high", hi), ("low", lo), ("volume", vo)]
      "low" = some lo ∧
    getCol [("close", cl), ("high", hi), ("low", lo), ("volume", vo)]
      "volume" = some vo := by
  refine ⟨?_, ?_, ?_, ?_⟩ <;>
    simp [getCol, lowerCols, List.lookup, lowerStr_close, lowerStr_high,
      lowerStr_low, lowerStr_volume, beq_high_close, beq_low_close,
      beq_low_high, beq_volume_close, beq_volume_high, beq_volume_low]

lemma compute_indicators_quad (sq : ℚ → ℚ) (vw ew : ℕ)
    (cl hi lo vo : List ℚ) (hne : cl ≠ []) :
    compute_indicators sq vw ew
        [("close", cl), ("high", hi), ("low", lo), ("volume", vo)] =
      ((List.range cl.length).filter
          (fun i => (indicatorRowOpts sq vw ew cl hi lo vo i).all
            Option.isSome)).map
        (fun i => (indicatorRowOpts sq vw ew cl hi lo vo i).map
          (fun o => o.getD 0)) := by
  obtain ⟨h1, h2, h3, h4⟩ := getCol_quad cl hi lo vo
  have hemp : frameEmpty
      [("close", cl), ("high", hi), ("low", lo), ("volume", vo)] = false := by
    simp [frameEmpty, frameNRows, List.length_eq_zero, hne]
  have hreq : requiredCols.any (fun c => (getCol
      [("close", cl), ("high", hi), ("low", lo), ("volume", vo)] c).isNone) =
      false := by
    simp [requiredCols, h1, h2, h3, h4]
  simp only [compute_indicators, hemp, hreq, Bool.false_eq_true, if_false,
    h1, h2, h3, h4, Option.getD_some]

lemma compute_indicators_obv_col (sq : ℚ → ℚ) (vw ew : ℕ)
    (cl hi lo vo : List ℚ) (hne : cl ≠ []) :
    (compute_indicators sq vw ew
        [("close", cl), ("high", hi), ("low", lo), ("volume", vo)]).map
      (fun r => r.getD 5 0) =
    ((List.range cl.length).filter
        (fun i => (indicatorRowOpts sq vw ew cl hi lo vo i).all
          Option.isSome)).map
      (fun i => (obvColumn cl vo).getD i 0) := by
  rw [compute_indicators_quad sq vw ew cl hi lo vo hne, List.map_map]
  rfl

lemma map_range_getD (l : List ℚ) :
    (List.range l.length).map (fun i => l.getD i 0) = l := by
  apply List.ext_getElem?
  intro n
  rcases Nat.lt_or_ge n l.length with h | h
  · rw [List.getElem?_map, List.getElem?_range h]
    simp [List.getD_eq_getElem l 0 h, List.getElem?_eq_getElem h]
  · rw [List.getElem?_map]
    have h1 : (List.range l.length)[n]? = none :=
      List.getElem?_eq_none (by simpa using h)
    have h2 : l[n]? = none := List.getElem?_eq_none h
    simp [h1, h2]

lemma minOf_le_maxOf (xs : List ℚ) : minOf xs ≤ maxOf xs := by
  cases xs with
  | nil => simp [minOf, maxOf]
  | cons x t =>
      have h1 : minOf (x :: t) ≤ x := by
        simp only [minOf, List.headD_cons, List.foldr_cons]
        exact min_le_left _ _
      have h2 : x ≤ maxOf (x :: t) := by
        simp only [maxOf, List.headD_cons, List.foldr_cons]
        exact le_max_left _ _
      linarith

lemma mmScale_nonneg (xs : List ℚ) : 0 ≤ mmScale xs := by
  unfold mmScale
  split
  · norm_num
  · next h =>
      have hle := minOf_le_maxOf xs
      have hp : 0 < maxOf xs - minOf xs := lt_of_le_of_ne (by linarith) (Ne.symm h)
      positivity

lemma minmaxList_pairwise_le (xs : List ℚ) (h : xs.Pairwise (· ≤ ·)) :
    (minmaxList xs).Pairwise (· ≤ ·) := by
  unfold minmaxList
  rw [List.pairwise_map]
  refine h.imp ?_
  intro a b hab
  exact mul_le_mul_of_nonneg_right (by linarith) (mmScale_nonneg xs)

lemma minmaxList_pairwise_ge (xs : List ℚ) (h : xs.Pairwise (· ≥ ·)) :
    (minmaxList xs).Pairwise (· ≥ ·) := by
  unfold minmaxList
  rw [List.pairwise_map]
  refine h.imp ?_
  intro a b hab
  exact mul_le_mul_of_nonneg_right (by linarith) (mmScale_nonneg xs)

lemma chain'_map_range (g : ℕ → ℚ) (S : ℚ → ℚ → Prop) (n : ℕ)
    (hstep : ∀ m, m + 1 < n → S (g m) (g (m + 1))) :
    List.Chain' S ((List.range n).map g) := by
  rw [List.chain'_map]
  cases n with
  | zero => simp
  | succ k =>
      rw [List.chain'_range_succ]
      intro m hm
      exact hstep m (by omega)

lemma obvAt_succ (c vol : List ℚ) (m : ℕ) :
    obvAt c vol (m + 1) = obvAt c vol m +
      (if c.getD m 0 < c.getD (m + 1) 0 then vol.getD (m + 1) 0
       else if c.getD (m + 1) 0 < c.getD m 0 then -vol.getD (m + 1) 0
       else 0) := rfl

lemma chain'_lt_getD (c : List ℚ) (h : c.Chain' (· < ·)) (m : ℕ)
    (hm : m + 1 < c.length) : c.getD m 0 < c.getD (m + 1) 0 := by
  rw [List.chain'_iff_get] at h
  have hh := h m (by omega)
  rw [List.getD_eq_getElem c 0 (show m < c.length by omega),
    List.getD_eq_getElem c 0 hm]
  simpa [List.get_eq_getElem] using hh

lemma chain'_gt_getD (c : List ℚ) (h : c.Chain' (· > ·)) (m : ℕ)
    (hm : m + 1 < c.length) : c.getD (m + 1) 0 < c.getD m 0 := by
  rw [List.chain'_iff_get] at h
  have hh := h m (by omega)
  rw [List.getD_eq_getElem c 0 hm,
    List.getD_eq_getElem c 0 (show m < c.length by omega)]
  simpa [List.get_eq_getElem] using hh

lemma replicate_getD (n : ℕ) (v : ℚ) (m : ℕ) (hm : m < n) :
    (List.replicate n v).getD m 0 = v := by
  rw [List.getD_eq_getElem?_getD, List.getElem?_replicate, if_pos hm]
  rfl

/-- C8: for a frame whose closes move strictly in one direction row to row
and whose volume is a constant `v ≥ 0`, the (min-max scaled) OBV column is
monotone: non-decreasing for strictly rising closes and non-increasing for
strictly falling closes, both as the scaled series itself and as the OBV
column of the rows the indicator engine actually returns after `dropna`. -/
theorem obv_monotone_trend (sq : ℚ → ℚ) (vw ew : ℕ)
    (closes highs lows : List ℚ) (v : ℚ) (hv : 0 ≤ v) :
    (closes.Chain' (· < ·) →
      (obvColumn closes (List.replicate closes.length v)).Pairwise (· ≤ ·) ∧
      ((compute_indicators sq vw ew [("close", closes), ("high", highs),
          ("low", lows), ("volume", List.replicate closes.length v)]).map
        (fun r => r.getD 5 0)).Pairwise (· ≤ ·)) ∧
    (closes.Chain' (· > ·) →
      (obvColumn closes (List.replicate closes.length v)).Pairwise (· ≥ ·) ∧
      ((compute_indicators sq vw ew [("close", closes), ("high", highs),
          ("low", lows), ("volume", List.replicate closes.length v)]).map
        (fun r => r.getD 5 0)).Pairwise (· ≥ ·)) := by
  set vol := List.replicate closes.length v with hvol
  by_cases hne : closes = []
  · subst hne
    constructor <;> intro _ <;>
      constructor <;> simp [obvColumn, minmaxList, compute_indicators,
        frameEmpty, frameNRows]
  · have hcol : ∀ S : ℚ → ℚ → Prop, [IsTrans ℚ S] →
        (∀ m, m + 1 < closes.length → S (obvAt closes vol m)
          (obvAt closes vol (m + 1))) →
        ((List.range closes.length).map (obvAt closes vol)).Pairwise S := by
      intro S hTrans hstep
      exact List.chain'_iff_pairwise.mp
        (chain'_map_range (obvAt closes vol) S closes.length hstep)
    have hlen : (obvColumn closes vol).length = closes.length := by
      simp [obvColumn, minmaxList]
    have hcoleq : (List.range closes.length).map
        (fun i => (obvColumn closes vol).getD i 0) = obvColumn closes vol := by
      conv_lhs => rw [← hlen]
      exact map_range_getD _
    have hsub : (((List.range closes.length).filter
        (fun i => (indicatorRowOpts sq vw ew closes highs lows vol i).all
          Option.isSome)).map
        (fun i => (obvColumn closes vol).getD i 0)).Sublist
          ((List.range closes.length).map
            (fun i => (obvColumn closes vol).getD i 0)) :=
      (List.filter_sublist _).map _
    constructor
    · intro hinc
      have hstep : ∀ m, m + 1 < closes.length →
          obvAt closes vol m ≤ obvAt closes vol (m + 1) := by
        intro m hm
        rw [obvAt_succ, if_pos (chain'_lt_getD closes hinc m hm),
          hvol, replicate_getD _ _ _ hm]
        linarith
      have hraw := hcol (· ≤ ·) hstep
      have hscaled : (obvColumn closes vol).Pairwise (· ≤ ·) :=
        minmaxList_pairwise_le _ hraw
      refine ⟨hscaled, ?_⟩
      rw [compute_indicators_obv_col sq vw ew closes highs lows vol hne]
      exact (hcoleq ▸ hscaled).sublist hsub
    · intro hdec
      have hstep : ∀ m, m + 1 < closes.length →
          obvAt closes vol (m + 1) ≤ obvAt closes vol m := by
        intro m hm
        have hgt := chain'_gt_getD closes hdec m hm
        rw [obvAt_succ, if_neg (not_lt.mpr (le_of_lt hgt)), if_pos hgt,
          hvol, replicate_getD _ _ _ hm]
        linarith
      have hraw := hcol (· ≥ ·) hstep
      have hscaled : (obvColumn closes vol).Pairwise (· ≥ ·) :=
        minmaxList_pairwise_ge _ hraw
      refine ⟨hscaled, ?_⟩
      rw [compute_indicators_obv_col sq vw ew closes highs lows vol hne]
      exact (hcoleq ▸ hscaled).sublist hsub

/-- Witness for `obv_monotone_trend` on a concrete two-row rising frame. -/
theorem obv_monotone_trend_witness :
    (obvColumn [1, 2] (List.replicate 2 5)).Pairwise (· ≤ ·) := by
  have h := (obv_monotone_trend (fun x => x) 14 20 [1, 2] [] [] 5
    (by norm_num)).1 (by simp [List.chain'_cons])
  simpa using h.1

/-- Values of column `j` of a row-major feature matrix. -/
def colVals (m : List (List ℚ)) (j : ℕ) : List ℚ :=
  m.map (fun r => r.getD j 0)

/-- `MinMaxScaler().fit_transform(features_df)`: every column mapped through
its own `(x - data_min_) * scale_`. -/
def minmaxMatrix (m : List (List ℚ)) : List (List ℚ) :=
  m.map (fun r => r.enum.map
    (fun jx => (jx.2 - minOf (colVals m jx.1)) * mmScale (colVals m jx.1)))

/-- Day of week of a proleptic-Gregorian day ordinal, Monday = 0 (ordinal 1
is a Monday, as in Python's `date.toordinal`/`date.weekday`). -/
def weekday (o : ℕ) : ℕ := (o + 6) % 7

/-- First business day at or after `o`, the roll-forward pandas applies to
the start of a `freq='B'` date range. -/
def rollForwardBiz (o : ℕ) : ℕ :=
  if weekday o = 5 then o + 2 else if weekday o = 6 then o + 1 else o

/-- `pd.date_range(start=o, periods=k, freq='B')` as day ordinals: `k`
consecutive business days starting at the first business day `≥ o`. -/
def bizDates : ℕ → ℕ → List ℕ
  | _, 0 => []
  | o, k + 1 => rollForwardBiz o :: bizDates (rollForwardBiz o + 1) k

/-- Sentiment blending of the forecast
(`final_adjusted_prices[i] *= 1 + sentiment_weight * future_sentiment.get(d, 0)`
with `sentiment_weight = 0.005`). -/
def applySentiment (fs : List (ℕ × ℚ)) (dates : List ℕ)
    (prices : List ℚ) : List ℚ :=
  (dates.zip prices).map
    (fun dp => dp.2 * (1 + (5 / 1000) * ((fs.lookup dp.1).getD 0)))

/-- Model of `predict_future(training_data, time_step)`.  The trained LSTM
is abstracted as the opaque one-step predictor `f` (spec §4.3 fixes only
this interface), the drawn Gaussian noise vector as `noise` (its
distribution is irrelevant to the claims, which quantify over every
realization), `performSentiment`/`sentimentData`/`today` stand for
`PERFORM_SENTIMENT`, `self.sentiment_data` and `datetime.today()`, and
`histDates` is `training_data.index` as day ordinals (the frame is
rectangular, so `training_data.empty` iff `histDates = []`).  The source's
reordering of `features_df` columns to put `close` first is the identity
here because `compute_indicators` already returns the target at index 0. -/
def predict_future (sq : ℚ → ℚ) (f : List (List ℚ) → ℚ) (noise : List ℚ)
    (performSentiment : Bool) (today : ℕ) (sentimentData : List (ℕ × ℚ))
    (histDates : List ℕ) (df : RawFrame) (timeStep : ℕ) :
    List ℕ × List ℚ :=
  let predictionDays := 10
  let features := compute_indicators sq 20 20 df
  let lastDate := if histDates = [] then today else histDates.getLastD 0
  let futureDates := bizDates (lastDate + 1) predictionDays
  if features = [] then (futureDates, [])
  else
    let scaled := minmaxMatrix features
    if make_windows scaled timeStep = [] then (futureDates, [])
    else
      let scale0 := mmScale (colVals features 0)
      let minAttr := -(minOf (colVals features 0) * scale0)
      let lastSeq := scaled.drop (scaled.length - timeStep)
      let preds := rollPreds f lastSeq predictionDays
      let lastActual := ((df.lookup "close").getD []).getLastD 0
      let adjusted := adjustedPrices minAttr scale0 lastActual preds
      let blended :=
        if performSentiment && !sentimentData.isEmpty then
          let fs := forecast_future_sentiment today sentimentData futureDates
          if fs = [] then adjusted else applySentiment fs futureDates adjusted
        else adjusted
      let noisy := List.zipWith (fun a b => a + b) blended noise
      (futureDates, noisy.map (fun x => max x (1 / 100)))

lemma make_windows_of_short (m : List (List ℚ)) (T : ℕ)
    (h : m.length ≤ T) : make_windows m T = [] := by
  have h0 : m.length - T = 0 := Nat.sub_eq_zero_of_le h
  simp [make_windows, h0]

lemma predict_future_of_short (sq : ℚ → ℚ) (f : List (List ℚ) → ℚ)
    (noise : List ℚ) (ps : Bool) (today : ℕ) (smap : List (ℕ × ℚ))
    (hd : List ℕ) (df : RawFrame) (T : ℕ)
    (h : (compute_indicators sq 20 20 df).length ≤ T) :
    predict_future sq f noise ps today smap hd df T =
      (bizDates ((if hd = [] then today else hd.getLastD 0) + 1) 10, []) := by
  rw [predict_future]
  by_cases hf : compute_indicators sq 20 20 df = []
  · simp [hf]
  · have hwin : make_windows (minmaxMatrix (compute_indicators sq 20 20 df))
        T = [] := by
      refine make_windows_of_short _ T ?_
      simpa [minmaxMatrix] using h
    simp [hf, hwin]

/-- C5: input-data errors are absorbed, never raised (all the modelled
functions are total): an empty frame yields an empty feature matrix, a
frame missing any required structural column yields an empty feature
matrix, and a series leaving too few feature rows for even one window of
length `T` makes `predict_future` return an empty price path. -/
theorem input_error_empty_result :
    (∀ (sq : ℚ → ℚ) (vw ew : ℕ) (df : RawFrame),
      frameEmpty df = true → compute_indicators sq vw ew df = []) ∧
    (∀ (sq : ℚ → ℚ) (vw ew : ℕ) (df : RawFrame) (c : String),
      c ∈ requiredCols → getCol df c = none →
        compute_indicators sq vw ew df = []) ∧
    (∀ (sq : ℚ → ℚ) (f : List (List ℚ) → ℚ) (noise : List ℚ) (ps : Bool)
      (today : ℕ) (smap : List (ℕ × ℚ)) (hd : List ℕ) (df : RawFrame)
      (T : ℕ), (compute_indicators sq 20 20 df).length ≤ T →
        (predict_future sq f noise ps today smap hd df T).2 = []) := by
  refine ⟨?_, ?_, ?_⟩
  · intro sq vw ew df h
    simp [compute_indicators, h]
  · intro sq vw ew df c hc h
    rw [compute_indicators]
    by_cases he : frameEmpty df
    · simp [he]
    · have hany : requiredCols.any (fun c => (getCol df c).isNone) = true :=
        List.any_eq_true.mpr ⟨c, hc, by simp [h]⟩
      simp [he, hany]
  · intro sq f noise ps today smap hd df T h
    rw [predict_future_of_short sq f noise ps today smap hd df T h]

/-- Witness for `input_error_empty_result` at three concrete bad inputs:
a frame with zero rows, a frame missing the `close` column, and a one-row
frame (too short for any window of length 60). -/
theorem input_error_empty_result_witness :
    compute_indicators (fun x => x) 14 20 [("close", ([] : List ℚ))] = [] ∧
    compute_indicators (fun x => x) 14 20 [("open", [(1 : ℚ)])] = [] ∧
    (predict_future (fun x => x) (fun _ => 0) [] false 0 [] [738000]
      [("close", [(5 : ℚ)]), ("high", [5]), ("low", [5]), ("volume", [5])]
      60).2 = [] := by
  refine ⟨?_, ?_, ?_⟩
  · exact input_error_empty_result.1 (fun x => x) 14 20 _ (by decide)
  · exact input_error_empty_result.2.1 (fun x => x) 14 20 _ "close"
      (by decide) (by decide)
  · exact input_error_empty_result.2.2 (fun x => x) (fun _ => 0) [] false 0 []
      [738000] _ 60 (by decide)

lemma bizDates_length : ∀ (k o : ℕ), (bizDates o k).length = k := by
  intro k
  induction k with
  | zero => intro o; rfl
  | succ k ih => intro o; simp [bizDates, ih]

lemma rollForwardBiz_ge (o : ℕ) : o ≤ rollForwardBiz o := by
  unfold rollForwardBiz
  split <;> try split
  all_goals omega

lemma rollForwardBiz_biz (o : ℕ) : weekday (rollForwardBiz o) < 5 := by
  unfold rollForwardBiz weekday
  split
  · next h => omega
  · split
    · next h => omega
    · next h1 h2 => omega

lemma bizDates_lb : ∀ (k o d : ℕ), d ∈ bizDates o k → o ≤ d := by
  intro k
  induction k with
  | zero => intro o d h; simp [bizDates] at h
  | succ k ih =>
      intro o d h
      simp only [bizDates, List.mem_cons] at h
      rcases h with rfl | h
      · exact rollForwardBiz_ge o
      · have := ih (rollForwardBiz o + 1) d h
        have := rollForwardBiz_ge o
        omega

lemma bizDates_pairwise : ∀ (k o : ℕ), (bizDates o k).Pairwise (· < ·) := by
  intro k
  induction k with
  | zero => intro o; simp [bizDates]
  | succ k ih =>
      intro o
      simp only [bizDates, List.pairwise_cons]
      refine ⟨?_, ih _⟩
      intro d hd
      have := bizDates_lb k (rollForwardBiz o + 1) d hd
      omega

lemma bizDates_biz : ∀ (k o : ℕ), ∀ d ∈ bizDates o k, weekday d < 5 := by
  intro k
  induction k with
  | zero => intro o d h; simp [bizDates] at h
  | succ k ih =>
      intro o d h
      simp only [bizDates, List.mem_cons] at h
      rcases h with rfl | h
      · exact rollForwardBiz_biz o
      · exact ih _ d h

/-- C10: on both failure paths (empty feature matrix, or too few feature
rows for one window) `predict_future` still returns 10 strictly increasing
business-day ordinals starting from the day after the last historical date,
paired with an empty price array — so the two returned sequences have
unequal lengths. -/
theorem failure_path_dates (sq : ℚ → ℚ) (f : List (List ℚ) → ℚ)
    (noise : List ℚ) (ps : Bool) (today : ℕ) (smap : List (ℕ × ℚ))
    (hd : List ℕ) (df : RawFrame) (T : ℕ) (hdne : hd ≠ [])
    (hfail : (compute_indicators sq 20 20 df).length ≤ T) :
    (predict_future sq f noise ps today smap hd df T).1 =
      bizDates (hd.getLastD 0 + 1) 10 ∧
    (predict_future sq f noise ps today smap hd df T).1.length = 10 ∧
    (predict_future sq f noise ps today smap hd df T).1.Pairwise (· < ·) ∧
    (∀ d ∈ (predict_future sq f noise ps today smap hd df T).1,
      weekday d < 5) ∧
    (predict_future sq f noise ps today smap hd df T).2 = [] ∧
    (predict_future sq f noise ps today smap hd df T).1.length ≠
      (predict_future sq f noise ps today smap hd df T).2.length := by
  rw [predict_future_of_short sq f noise ps today smap hd df T hfail]
  simp only [hdne, if_false]
  refine ⟨by simp, bizDates_length 10 _, bizDates_pairwise 10 _,
    bizDates_biz 10 _, by simp, ?_⟩
  rw [bizDates_length 10 _]
  simp

/-- Witness for `failure_path_dates` on a one-row frame. -/
theorem failure_path_dates_witness :
    (predict_future (fun x => x) (fun _ => 0) [] false 0 [] [738000]
      [("close", [(5 : ℚ)]), ("high", [5]), ("low", [5]), ("volume", [5])]
      60).2 = [] ∧
    (predict_future (fun x => x) (fun _ => 0) [] false 0 [] [738000]
      [("close", [(5 : ℚ)]), ("high", [5]), ("low", [5]), ("volume", [5])]
      60).1.length = 10 := by
  have h := failure_path_dates (fun x => x) (fun _ => 0) [] false 0 []
    [738000]
    [("close", [(5 : ℚ)]), ("high", [5]), ("low", [5]), ("volume", [5])]
    60 (by decide) (by decide)
  exact ⟨h.2.2.2.2.1, h.2.1⟩

/-- C9: whatever the trained predictor, the sentiment data and the drawn
noise vector, every price returned by `predict_future` is strictly positive
— the floor step clamps each noisy price to the strictly positive minimum
0.01, and the failure paths return no prices at all. -/
theorem price_floor_positive (sq : ℚ → ℚ) (f : List (List ℚ) → ℚ)
    (noise : List ℚ) (ps : Bool) (today : ℕ) (smap : List (ℕ × ℚ))
    (hd : List ℕ) (df : RawFrame) (T : ℕ) :
    ∀ p ∈ (predict_future sq f noise ps today smap hd df T).2, 0 < p := by
  intro p hp
  rw [predict_future] at hp
  by_cases hf : compute_indicators sq 20 20 df = []
  · simp [hf] at hp
  · by_cases hw : make_windows (minmaxMatrix (compute_indicators sq 20 20 df))
        T = []
    · simp [hf, hw] at hp
    · simp only [hf, hw, if_false, List.mem_map] at hp
      obtain ⟨x, _, rfl⟩ := hp
      exact lt_of_lt_of_le (by norm_num) (le_max_right x (1 / 100))

lemma emaFrom_const (a v : ℚ) : ∀ k,
    emaFrom a v (List.replicate k v) = List.replicate k v := by
  intro k
  induction k with
  | zero => rfl
  | succ k ih =>
      have he : a * v + (1 - a) * v = v := by ring
      simp [List.replicate_succ, emaFrom, he, ih]

lemma emaList_const (a v : ℚ) (n : ℕ) :
    emaList a (List.replicate n v) = List.replicate n v := by
  cases n with
  | zero => rfl
  | succ n => simp [List.replicate_succ, emaList, emaFrom_const]

lemma ema_span_const (s' n : ℕ) (v : ℚ) :
    ema_span s' (List.replicate n v) = List.replicate n v :=
  emaList_const _ _ _

lemma zip_replicate_succ (v : ℚ) : ∀ k,
    (List.replicate (k + 1) v).zip (List.replicate k v) =
      List.replicate k (v, v) := by
  intro k
  induction k with
  | zero => rfl
  | succ k ih =>
      rw [List.replicate_succ v (k + 1), List.replicate_succ v k,
        List.zip_cons_cons, ← List.replicate_succ v k, ih,
        ← List.replicate_succ]

lemma diffLosses_const (v : ℚ) (n : ℕ) :
    diffLosses (List.replicate n v) = List.replicate (n - 1) 0 := by
  cases n with
  | zero => rfl
  | succ n =>
      unfold diffLosses
      rw [show (List.replicate (n + 1) v).tail = List.replicate n v by
          simp [List.replicate_succ],
        zip_replicate_succ v n, List.map_replicate]
      simp

lemma diffGains_const (v : ℚ) (n : ℕ) :
    diffGains (List.replicate n v) = List.replicate (n - 1) 0 := by
  cases n with
  | zero => rfl
  | succ n =>
      unfold diffGains
      rw [show (List.replicate (n + 1) v).tail = List.replicate n v by
          simp [List.replicate_succ],
        zip_replicate_succ v n, List.map_replicate]
      simp

lemma ewmNum_replicate_zero (a : ℚ) : ∀ k,
    ewmNum a (List.replicate k 0) = 0 := by
  intro k
  induction k with
  | zero => rfl
  | succ k ih =>
      unfold ewmNum at ih ⊢
      simp [List.replicate_succ, ih]

lemma avgLoss_const (v : ℚ) (n i : ℕ) :
    avgLoss (List.replicate n v) 14 i =
      if 14 ≤ i ∧ i < n then some 0 else none := by
  unfold avgLoss
  simp only [List.length_replicate]
  split
  · rw [diffLosses_const, List.take_replicate, ewmNum_replicate_zero]
    simp
  · rfl

lemma avgGain_const (v : ℚ) (n i : ℕ) :
    avgGain (List.replicate n v) 14 i =
      if 14 ≤ i ∧ i < n then some 0 else none := by
  unfold avgGain
  simp only [List.length_replicate]
  split
  · rw [diffGains_const, List.take_replicate, ewmNum_replicate_zero]
    simp
  · rfl

lemma rsiAt_const (v : ℚ) (n i : ℕ) :
    rsiAt (List.replicate n v) 14 i = 100 := by
  unfold rsiAt
  rw [avgGain_const, avgLoss_const]
  by_cases h : 14 ≤ i ∧ i < n <;> simp [h]

lemma compute_rsi_const (v : ℚ) (n : ℕ) :
    compute_rsi (List.replicate n v) 14 = List.replicate n 100 := by
  unfold compute_rsi
  simp only [List.length_replicate]
  rw [List.map_congr_left (fun i _ => rsiAt_const v n i), List.map_const',
    List.length_range]

set_option maxRecDepth 4000 in
set_option maxHeartbeats 2000000 in
lemma compute_indicators_const (sq : ℚ → ℚ) :
    compute_indicators sq 20 20
      [("close", List.replicate 20 5), ("high", List.replicate 20 5),
       ("low", List.replicate 20 5), ("volume", List.replicate 20 5)] =
    [[5, 5, 0, 100, 0, 0, 0, sq 0, 4 * sq 0 / 5]] := by
  rw [compute_indicators_quad sq 20 20 _ _ _ _ (by simp)]
  simp only [indicatorRowOpts, compute_rsi_const, ema_span_const]
  norm_num [List.replicate_succ, List.range_succ, rollingMean, diffOpt,
    obvColumn, obvAt, minOf, maxOf, mmScale, minmaxList, atrList, trAt,
    stdAt, bbRawAt, bfillList, ema_span, emaList, emaFrom,
    List.getD_cons_succ, List.getD_cons_zero]

set_option maxRecDepth 4000 in
set_option maxHeartbeats 2000000 in
/-- Witness for `price_floor_positive` on a concrete constant 20-row frame
that reaches the success path (window length 1): the returned prices
contain 5, and the theorem yields its positivity. -/
theorem price_floor_positive_witness : (0 : ℚ) < 5 := by
  refine price_floor_positive (fun x => x) (fun _ => 0) (List.replicate 10 0)
    false 0 [] [738000]
    [("close", List.replicate 20 5), ("high", List.replicate 20 5),
     ("low", List.replicate 20 5), ("volume", List.replicate 20 5)] 0 5 ?_
  have hci := compute_indicators_const (fun x => x)
  norm_num at hci
  simp only [predict_future, hci]
  norm_num [make_windows, minmaxMatrix, colVals, minOf, maxOf, mmScale,
    rollPreds, rollWindow, rollStep, synthRow, inverseClose, adjustedPrices,
    List.replicate_succ, List.range', List.enum, List.enumFrom, List.lookup,
    List.getLastD, max_def]

end StockApk
